import Mathlib

/-!
Verification of the wav2multi-lib codec layer.

The Go sources are shallowly embedded as follows.

Machine integers: Go int16 values are modelled as Int together with the
explicit wrap function int16wrap, applied exactly where Go int16 arithmetic
can overflow (negation of the minimum value, the bias-33 addition).
Go arithmetic right shift on int16 (x >> k) is floor division, which for a
positive divisor coincides with Lean Int division (ediv); Go masking with a
low-bit mask (x & 0x0F, x & 0xFF) extracts the low bits of the two's
complement representation, which is Euclidean mod (x % 16, x % 256).

Bytes are modelled as Nat.  In pcmToULaw and pcmToALaw the composed byte is
segment*16 + quant (+ 128 for the sign bit); the Go code uses bitwise or,
but segment <= 7 and quant <= 15 occupy disjoint bit ranges, so or equals
addition there (compandByte_le below checks the byte never exceeds 255, so
the Go byte conversions never truncate).  The final mu-law complement of a
byte is xor with 255; the A-law even-bit inversion is xor with 85.

Fallible Go functions returning (T, error) are modelled as Except GoError T.
Each distinct error value of the source gets its own GoError constructor;
fmt Errorf wrapping with a percent-w verb is the errG729NotAvailable
constructor holding the wrapped error, and errors.Is is the function errorIs
that compares and then follows the unwrap chain.

The external WAV decode capability (youpy go-wav) and the external bcg729
frame encoder are capability parameters (wavDecode, encFrame), per the
specification boundary; everything else is translated from the repository
sources (types file, codecs file, the two g729 codec files).
-/

namespace Wav2Multi

/-- Go: type AudioFormat string. -/
abbrev AudioFormat := String

/-- Go constant FormatG729. -/
def FormatG729 : AudioFormat := "g729"

/-- Go constant FormatULaw. -/
def FormatULaw : AudioFormat := "ulaw"

/-- Go constant FormatALaw. -/
def FormatALaw : AudioFormat := "alaw"

/-- Go constant FormatSLIN. -/
def FormatSLIN : AudioFormat := "slin"

/-- The distinct error values of the package.  The first five are the
sentinel variables of the types file; errG729RequiresCGO is the error built
by NewG729Encoder in the nocgo build (message: G.729 encoding requires CGO
and libbcg729 library); errReaderMustBeFile is the error built by
ReadWAVSamples (message: reader must be an os File for youpy go-wav);
errG729NotAvailable is the wrapping error built by GetEncoder
(message prefix: G.729 encoder not available) holding the wrapped cause. -/
inductive GoError where
  | errInvalidFormat
  | errUnsupportedFormat
  | errInvalidInput
  | errInvalidOutput
  | errCodecNotAvailable
  | errG729RequiresCGO
  | errReaderMustBeFile
  | errG729NotAvailable (inner : GoError)
  deriving DecidableEq, BEq

/-- Go errors.Is: the target is reached either by direct comparison or by
following the unwrap chain of wrapping errors. -/
def errorIs : GoError → GoError → Bool
  | .errG729NotAvailable inner, t =>
      (GoError.errG729NotAvailable inner == t) || errorIs inner t
  | e, t => e == t

/-- Wrap of Go int addition and negation into the int16 range, two's
complement style: the result is congruent mod 65536 and lies in
the interval from -32768 to 32767. -/
def int16wrap (x : Int) : Int := (x + 32768) % 65536 - 32768

/-- Steps 87 to 90 of the codecs file (shared verbatim by pcmToULaw and
pcmToALaw): sign test and magnitude.  Go negation of an int16 wraps, hence
the int16wrap around the negation (observable only at -32768). -/
def compandMag (pcm : Int) : Int := if pcm < 0 then int16wrap (-pcm) else pcm

/-- The segment search loop of pcmToULaw and pcmToALaw: starting from
temp = biased >> 7, count right shifts until temp is no longer positive.
The Go loop terminates because temp strictly decreases; fuel 16 is enough
for any int16 input (temp starts in the range -256 to 255, so at most 8
iterations happen) and the fuel is never exhausted on the int16 domain. -/
def uSegLoop : Nat → Int → Nat → Nat
  | 0, _, seg => seg
  | fuel + 1, temp, seg =>
      if 0 < temp then uSegLoop fuel (temp / 2) (seg + 1) else seg

/-- The shared core of pcmToULaw and pcmToALaw on the magnitude: add the
bias 33 (int16 addition, hence the wrap), find the segment (clipped at 7),
quantize, and compose segment and quantization into one byte.
Go: pcm += 33; segment search; quantization = (pcm >> (segment+3)) & 0x0F;
composed = byte(segment<<4) | byte(quantization). -/
def compandCore (mag : Int) : Nat :=
  let biased := int16wrap (mag + 33)
  let seg0 := uSegLoop 16 (biased / 128) 0
  let segment := min seg0 7
  let quant := ((biased / 2 ^ (segment + 3)) % 16).toNat
  segment * 16 + quant

/-- The composed byte before the final transform, with the sign bit 0x80
set for negative input (Go: if sign, or with 0x80; addition equals or here
because compandCore stays below 128). -/
def compandByte (pcm : Int) : Nat :=
  compandCore (compandMag pcm) + (if pcm < 0 then 128 else 0)

/-- Go pcmToULaw: the composed byte, then invert all 8 bits. -/
def pcmToULaw (pcm : Int) : Nat := compandByte pcm ^^^ 255

/-- Go pcmToALaw: the composed byte, then xor with 0x55. -/
def pcmToALaw (pcm : Int) : Nat := compandByte pcm ^^^ 85

/-- The two bytes written per sample by the SLIN encoder, little endian:
Go byte(sample & 0xFF) then byte((sample >> 8) & 0xFF). -/
def slinBytes (sample : Int) : List Nat :=
  [(sample % 256).toNat, ((sample / 256) % 256).toNat]

/-- The common shape of the three per-sample encoder loops of the codecs
file: for each sample in order, write its encoded bytes; a write error
aborts immediately.  The writer is any byte sink, modelled by a state type
and a write function that may fail. -/
def encodeLoop {σ : Type} (enc : Int → List Nat)
    (write : σ → List Nat → Except GoError σ) :
    List Int → σ → Except GoError σ
  | [], st => .ok st
  | x :: xs, st =>
      match write st (enc x) with
      | .error e => .error e
      | .ok st2 => encodeLoop enc write xs st2

/-- A byte sink that accepts every write (a bytes Buffer): the state is the
list of bytes written so far. -/
def bufWrite (st : List Nat) (bs : List Nat) : Except GoError (List Nat) :=
  .ok (st ++ bs)

/-- Go ULawEncoder Encode: one mu-law byte per sample. -/
def ULawEncoderEncode {σ : Type} (write : σ → List Nat → Except GoError σ)
    (samples : List Int) (st : σ) : Except GoError σ :=
  encodeLoop (fun sample => [pcmToULaw sample]) write samples st

/-- Go ALawEncoder Encode: one A-law byte per sample. -/
def ALawEncoderEncode {σ : Type} (write : σ → List Nat → Except GoError σ)
    (samples : List Int) (st : σ) : Except GoError σ :=
  encodeLoop (fun sample => [pcmToALaw sample]) write samples st

/-- Go SLINEncoder Encode: two little-endian bytes per sample. -/
def SLINEncoderEncode {σ : Type} (write : σ → List Nat → Except GoError σ)
    (samples : List Int) (st : σ) : Except GoError σ :=
  encodeLoop slinBytes write samples st

/-- The encoder values returned by GetEncoder (Go: the ULawEncoder,
ALawEncoder, SLINEncoder structs and the G729 encoder interface value). -/
inductive CodecEncoder where
  | g729Encoder
  | ulawEncoder
  | alawEncoder
  | slinEncoder
  deriving DecidableEq

/-- The GetFormat method of each encoder. -/
def CodecEncoder.getFormat : CodecEncoder → AudioFormat
  | .g729Encoder => FormatG729
  | .ulawEncoder => FormatULaw
  | .alawEncoder => FormatALaw
  | .slinEncoder => FormatSLIN

/-- Go NewG729Encoder of the nocgo build file: always fails with the
message that G.729 encoding requires CGO and libbcg729. -/
def NewG729EncoderNoCGO : Except GoError CodecEncoder :=
  .error .errG729RequiresCGO

/-- Go GetEncoder of the codecs file, parameterized by the build-selected
NewG729Encoder result: switch on the format, wrap a G729 constructor error,
default to the unsupported-format sentinel. -/
def GetEncoder (newG729 : Except GoError CodecEncoder) (format : AudioFormat) :
    Except GoError CodecEncoder :=
  if format = FormatG729 then
    match newG729 with
    | .error err => .error (.errG729NotAvailable err)
    | .ok enc => .ok enc
  else if format = FormatULaw then .ok .ulawEncoder
  else if format = FormatALaw then .ok .alawEncoder
  else if format = FormatSLIN then .ok .slinEncoder
  else .error .errUnsupportedFormat

/-- GetEncoder on a build without CGO. -/
def GetEncoderNoCGO : AudioFormat → Except GoError CodecEncoder :=
  GetEncoder NewG729EncoderNoCGO

/-- The format value outside the closed enumeration used by the tests. -/
def formatInvalid : AudioFormat := "invalid"

/-- The WAV metadata returned by the external decoder (youpy go-wav Format
fields used by ReadWAVSamples). -/
structure WavFormat where
  audioFormat : Nat
  numChannels : Nat
  sampleRate : Nat
  bitsPerSample : Nat
  deriving DecidableEq

/-- The FileInfo fields ReadWAVSamples fills from the decoded metadata
(the float Duration field and the path, type and size strings carry no
algorithmic content and are omitted). -/
structure FileInfo where
  bitDepth : Nat
  sampleRate : Nat
  channels : Nat
  totalSamples : Nat
  deriving DecidableEq

/-- A Go io.Reader as seen by ReadWAVSamples: its dynamic type either is or
is not a pointer to os.File, and it carries the bytes it would supply. -/
structure GoReader where
  isOSFile : Bool
  bytes : List Nat

/-- Go ReadWAVSamples, with the external WAV decoding as a capability
parameter producing metadata and samples from the byte source: reject any
reader that is not an os File, propagate decoder errors, validate the
metadata (PCM tag 1, mono, 8000 Hz, 16 bit, each violation yielding the
invalid-format sentinel), and return the samples with the FileInfo. -/
def ReadWAVSamples
    (wavDecode : List Nat → Except GoError (WavFormat × List Int))
    (r : GoReader) : Except GoError (List Int × FileInfo) :=
  if r.isOSFile then
    match wavDecode r.bytes with
    | .error e => .error e
    | .ok (fmt, samples) =>
        if fmt.audioFormat ≠ 1 then .error .errInvalidFormat
        else if fmt.numChannels ≠ 1 then .error .errInvalidFormat
        else if fmt.sampleRate ≠ 8000 then .error .errInvalidFormat
        else if fmt.bitsPerSample ≠ 16 then .error .errInvalidFormat
        else .ok (samples,
          ⟨fmt.bitsPerSample, fmt.sampleRate, fmt.numChannels, samples.length⟩)
  else .error .errReaderMustBeFile

/-- The frame built for one iteration of the G729 Encode loop: a fresh
80-zero buffer with the remaining samples copied over it (Go: frame := make
of 80 int16, then copy of the tail), so the tail is taken up to 80 and the
rest stays zero. -/
def makeFrame (rest : List Int) : List Int :=
  rest.take 80 ++ List.replicate (80 - rest.length) 0

/-- The sequence of 80-sample frames the G729 Encode loop submits to the
external bcg729 frame encoder, in loop order (Go: for i from 0 step 80). -/
def g729SubmittedFrames : List Int → List (List Int)
  | [] => []
  | x :: xs =>
      makeFrame (x :: xs) :: g729SubmittedFrames (List.drop 80 (x :: xs))
termination_by l => l.length
decreasing_by
  simp [List.length_drop]
  omega

/-- Concatenation of the byte lists produced per element, used to state
what a sink that accepts all writes has received. -/
def concatMap {α β : Type} (f : α → List β) : List α → List β
  | [] => []
  | x :: xs => f x ++ concatMap f xs

/-- Reinterpretation of a byte stream as consecutive little-endian byte
pairs, each read back as a signed 16-bit value.  Modelled from the spec:
this is the decoding direction, which the repository does not implement;
it is the inverse reading prescribed by the little-endian output layout. -/
def slinDecodeBytes : List Nat → List Int
  | lo :: hi :: rest =>
      (if 32768 ≤ (lo : Int) + 256 * hi
        then (lo : Int) + 256 * hi - 65536
        else (lo : Int) + 256 * hi) :: slinDecodeBytes rest
  | _ => []

/-! Supporting lemmas. -/

theorem int16wrap_eq_self (x : Int) (h1 : -32768 ≤ x) (h2 : x ≤ 32767) :
    int16wrap x = x := by
  unfold int16wrap
  have h3 : (x + 32768) % 65536 = x + 32768 :=
    Int.emod_eq_of_lt (by omega) (by omega)
  omega

theorem compandMag_neg (s : Int) (h1 : 1 ≤ s) (h2 : s ≤ 32767) :
    compandMag (-s) = compandMag s := by
  unfold compandMag
  rw [if_pos (by omega : -s < 0), if_neg (by omega : ¬ s < 0), neg_neg]
  exact int16wrap_eq_self s (by omega) h2

theorem compandCore_le (mag : Int) : compandCore mag ≤ 127 := by
  have h : ∀ (biased : Int) (seg0 : Nat),
      min seg0 7 * 16 + ((biased / 2 ^ (min seg0 7 + 3)) % 16).toNat ≤ 127 := by
    intro biased seg0
    have hseg : min seg0 7 ≤ 7 := Nat.min_le_right _ _
    have hq0 : 0 ≤ (biased / 2 ^ (min seg0 7 + 3)) % 16 :=
      Int.emod_nonneg _ (by norm_num)
    have hq1 : (biased / 2 ^ (min seg0 7 + 3)) % 16 < 16 :=
      Int.emod_lt_of_pos _ (by norm_num)
    omega
  exact h (int16wrap (mag + 33)) (uSegLoop 16 (int16wrap (mag + 33) / 128) 0)

theorem compandByte_le (pcm : Int) : compandByte pcm ≤ 255 := by
  unfold compandByte
  have := compandCore_le (compandMag pcm)
  split <;> omega

theorem encodeLoop_buf (enc : Int → List Nat) (samples : List Int)
    (acc : List Nat) :
    encodeLoop enc bufWrite samples acc = .ok (acc ++ concatMap enc samples) := by
  induction samples generalizing acc with
  | nil => simp [encodeLoop, concatMap]
  | cons x xs ih => simp [encodeLoop, concatMap, bufWrite, ih]

theorem concatMap_singleton (f : Int → Nat) (samples : List Int) :
    concatMap (fun x => [f x]) samples = samples.map f := by
  induction samples with
  | nil => rfl
  | cons x xs ih => simp [concatMap, ih]

theorem concatMap_slin_length (samples : List Int) :
    (concatMap slinBytes samples).length = 2 * samples.length := by
  induction samples with
  | nil => rfl
  | cons x xs ih => simp [concatMap, slinBytes, ih]; omega

theorem makeFrame_length (rest : List Int) : (makeFrame rest).length = 80 := by
  simp [makeFrame]
  omega

theorem frames_all_length (samples : List Int) :
    ∀ f ∈ g729SubmittedFrames samples, f.length = 80 := by
  induction samples using g729SubmittedFrames.induct with
  | case1 =>
      intro f hf
      simp [g729SubmittedFrames] at hf
  | case2 x xs ih =>
      intro f hf
      rw [g729SubmittedFrames] at hf
      rcases List.mem_cons.mp hf with h | h
      · rw [h]; exact makeFrame_length _
      · exact ih f h

theorem frames_flatten (samples : List Int) :
    concatMap (fun f => f) (g729SubmittedFrames samples)
      = samples ++ List.replicate ((80 - samples.length % 80) % 80) 0 := by
  induction samples using g729SubmittedFrames.induct with
  | case1 =>
      rw [g729SubmittedFrames]
      simp [concatMap]
  | case2 x xs ih =>
      rw [g729SubmittedFrames]
      rw [show concatMap (fun f => f)
            (makeFrame (x :: xs) :: g729SubmittedFrames (List.drop 80 (x :: xs)))
          = makeFrame (x :: xs)
            ++ concatMap (fun f => f) (g729SubmittedFrames (List.drop 80 (x :: xs)))
        from rfl]
      rw [ih]
      by_cases hle : (x :: xs).length ≤ 80
      · have hdrop : List.drop 80 (x :: xs) = [] := List.drop_eq_nil_of_le hle
        rw [hdrop]
        have hlen : (x :: xs).length = xs.length + 1 := rfl
        simp only [List.length_nil]
        rw [show ((80 - (0 : Nat) % 80) % 80) = 0 by norm_num]
        simp only [List.replicate_zero, List.nil_append, List.append_nil]
        unfold makeFrame
        rw [List.take_of_length_le hle]
        have hc : (80 - (x :: xs).length % 80) % 80 = 80 - (x :: xs).length := by
          rw [hlen] at hle ⊢
          omega
        rw [hc]
      · push_neg at hle
        have hfr : makeFrame (x :: xs) = List.take 80 (x :: xs) := by
          unfold makeFrame
          rw [show (80 - (x :: xs).length) = 0 by omega]
          simp
        rw [hfr]
        have hdl : (List.drop 80 (x :: xs)).length = (x :: xs).length - 80 :=
          List.length_drop _ _
        rw [hdl]
        have hc : (80 - ((x :: xs).length - 80) % 80) % 80
            = (80 - (x :: xs).length % 80) % 80 := by
          have h80 : 80 ≤ (x :: xs).length := by omega
          have : ((x :: xs).length - 80) % 80 = (x :: xs).length % 80 := by
            omega
          rw [this]
        rw [hc, ← List.append_assoc, List.take_append_drop]

theorem slinDecode_cons (s : Int) (bs : List Nat)
    (h1 : -32768 ≤ s) (h2 : s ≤ 32767) :
    slinDecodeBytes (slinBytes s ++ bs) = s :: slinDecodeBytes bs := by
  show slinDecodeBytes ((s % 256).toNat :: ((s / 256) % 256).toNat :: bs) = _
  rw [slinDecodeBytes]
  have e1 : (((s % 256).toNat : Int)) = s % 256 :=
    Int.toNat_of_nonneg (Int.emod_nonneg s (by norm_num))
  have e2 : ((((s / 256) % 256).toNat : Int)) = (s / 256) % 256 :=
    Int.toNat_of_nonneg (Int.emod_nonneg _ (by norm_num))
  rw [e1, e2]
  congr 1
  split <;> omega

theorem slin_roundtrip_all (samples : List Int)
    (h : ∀ s ∈ samples, -32768 ≤ s ∧ s ≤ 32767) :
    slinDecodeBytes (concatMap slinBytes samples) = samples := by
  induction samples with
  | nil => rfl
  | cons x xs ih =>
      have hx := h x (by simp)
      rw [show concatMap slinBytes (x :: xs)
          = slinBytes x ++ concatMap slinBytes xs from rfl]
      rw [slinDecode_cons x _ hx.1 hx.2]
      rw [ih (fun s hs => h s (by simp [hs]))]

/-! Claim theorems. -/

/-- Claim C1, counterexample: the claim quantifies over all nonzero s in
the full int16 range, but at s = -32768 the Go int16 negation wraps back to
-32768 itself, so pcmToULaw and pcmToALaw return the same byte for s and for
the negation of s, and the claimed inequality fails there. -/
theorem c1_neg_extreme_counterexample :
    int16wrap (-(-32768 : Int)) = -32768
    ∧ pcmToULaw (-32768 : Int) = pcmToULaw (int16wrap (-(-32768 : Int)))
    ∧ pcmToALaw (-32768 : Int) = pcmToALaw (int16wrap (-(-32768 : Int))) := by
  refine ⟨by decide, ?_, ?_⟩ <;> rfl

/-- Claim C1, amended: for every nonzero int16 sample s other than -32768
(so that the negation of s is again an int16 value, with no wrap), the sign
of the input is observable: pcmToULaw s differs from pcmToULaw (-s), and
pcmToALaw s differs from pcmToALaw (-s). -/
theorem c1_sign_observable_amended (s : Int)
    (h1 : -32767 ≤ s) (h2 : s ≤ 32767) (h0 : s ≠ 0) :
    pcmToULaw s ≠ pcmToULaw (-s) ∧ pcmToALaw s ≠ pcmToALaw (-s) := by
  have key : ∀ t : Int, 1 ≤ t → t ≤ 32767 →
      pcmToULaw t ≠ pcmToULaw (-t) ∧ pcmToALaw t ≠ pcmToALaw (-t) := by
    intro t ht1 ht2
    have hmag := compandMag_neg t ht1 ht2
    have hbt : compandByte t = compandCore (compandMag t) := by
      unfold compandByte
      rw [if_neg (by omega : ¬ t < 0)]
      omega
    have hbn : compandByte (-t) = compandCore (compandMag t) + 128 := by
      unfold compandByte
      rw [if_pos (by omega : -t < 0), hmag]
    constructor
    · intro heq
      unfold pcmToULaw at heq
      rw [hbt, hbn] at heq
      have h255 := congrArg (fun n => n ^^^ 255) heq
      simp only [Nat.xor_cancel_right] at h255
      omega
    · intro heq
      unfold pcmToALaw at heq
      rw [hbt, hbn] at heq
      have h85 := congrArg (fun n => n ^^^ 85) heq
      simp only [Nat.xor_cancel_right] at h85
      omega
  rcases lt_trichotomy s 0 with hneg | hz | hpos
  · have hk := key (-s) (by omega) (by omega)
    rw [neg_neg] at hk
    exact ⟨hk.1.symm, hk.2.symm⟩
  · exact absurd hz h0
  · exact key s (by omega) h2

/-- Claim C1, witness: the amended theorem applied at the sample 100. -/
theorem c1_sign_observable_witness :
    pcmToULaw 100 ≠ pcmToULaw (-100) ∧ pcmToALaw 100 ≠ pcmToALaw (-100) :=
  c1_sign_observable_amended 100 (by norm_num) (by norm_num) (by norm_num)

/-- Claim C9: for every int16 sample s, the two companding transforms share
the whole sign, segment and quantization computation and differ only in the
final masking step: the xor of the mu-law byte and the A-law byte is 0xAA,
and equivalently the A-law byte is the 8-bit complement of the mu-law byte
xored with 0x55. -/
theorem c9_alaw_ulaw_xor (s : Int) (h1 : -32768 ≤ s) (h2 : s ≤ 32767) :
    pcmToULaw s ^^^ pcmToALaw s = 170
    ∧ pcmToALaw s = (pcmToULaw s ^^^ 255) ^^^ 85 := by
  unfold pcmToULaw pcmToALaw
  constructor
  · calc (compandByte s ^^^ 255) ^^^ (compandByte s ^^^ 85)
        = ((compandByte s ^^^ 255) ^^^ compandByte s) ^^^ 85 :=
          (Nat.xor_assoc _ _ _).symm
      _ = ((255 ^^^ compandByte s) ^^^ compandByte s) ^^^ 85 := by
          rw [Nat.xor_comm (compandByte s) 255]
      _ = 255 ^^^ 85 := by rw [Nat.xor_cancel_right]
      _ = 170 := by decide
  · rw [Nat.xor_cancel_right]

/-- Claim C9, witness: the theorem applied at the sample 1000. -/
theorem c9_alaw_ulaw_xor_witness :
    pcmToULaw 1000 ^^^ pcmToALaw 1000 = 170
    ∧ pcmToALaw 1000 = (pcmToULaw 1000 ^^^ 255) ^^^ 85 :=
  c9_alaw_ulaw_xor 1000 (by norm_num) (by norm_num)

/-- Claim C4: on a sink that accepts every write, the mu-law and A-law
encoders succeed and emit exactly one byte per sample in input order, so N
samples yield N bytes; the SLIN encoder succeeds and emits exactly two
bytes per sample, so N samples yield 2N bytes. -/
theorem c4_encoders_exact_bytes (samples : List Int) :
    ULawEncoderEncode bufWrite samples [] = .ok (samples.map pcmToULaw)
    ∧ ALawEncoderEncode bufWrite samples [] = .ok (samples.map pcmToALaw)
    ∧ SLINEncoderEncode bufWrite samples [] = .ok (concatMap slinBytes samples)
    ∧ (samples.map pcmToULaw).length = samples.length
    ∧ (samples.map pcmToALaw).length = samples.length
    ∧ (concatMap slinBytes samples).length = 2 * samples.length := by
  refine ⟨?_, ?_, ?_, by simp, by simp, concatMap_slin_length samples⟩
  · rw [ULawEncoderEncode, encodeLoop_buf, concatMap_singleton]
    rfl
  · rw [ALawEncoderEncode, encodeLoop_buf, concatMap_singleton]
    rfl
  · rw [SLINEncoderEncode, encodeLoop_buf]
    rfl

/-- Claim C7: SLIN encoding is little endian: the single sample 100 yields
exactly the bytes 0x64 then 0x00, and the single sample 0 yields exactly
0x00 then 0x00. -/
theorem c7_slin_little_endian :
    SLINEncoderEncode bufWrite [100] [] = .ok [0x64, 0x00]
    ∧ SLINEncoderEncode bufWrite [0] [] = .ok [0x00, 0x00] :=
  ⟨rfl, rfl⟩

/-- Claim C6: whatever the build-selected G729 constructor does, GetEncoder
succeeds for each of the formats ulaw, alaw and slin and the returned
encoder reports the requested format; GetEncoder on every value outside the
closed format enumeration (any string other than the four format constants,
such as the value invalid used by the tests) fails with the
unsupported-format sentinel. -/
theorem c6_get_encoder_formats (newG729 : Except GoError CodecEncoder)
    (format : AudioFormat)
    (hg : format ≠ FormatG729) (hu : format ≠ FormatULaw)
    (ha : format ≠ FormatALaw) (hs : format ≠ FormatSLIN) :
    GetEncoder newG729 FormatULaw = .ok CodecEncoder.ulawEncoder
    ∧ CodecEncoder.getFormat CodecEncoder.ulawEncoder = FormatULaw
    ∧ GetEncoder newG729 FormatALaw = .ok CodecEncoder.alawEncoder
    ∧ CodecEncoder.getFormat CodecEncoder.alawEncoder = FormatALaw
    ∧ GetEncoder newG729 FormatSLIN = .ok CodecEncoder.slinEncoder
    ∧ CodecEncoder.getFormat CodecEncoder.slinEncoder = FormatSLIN
    ∧ GetEncoder newG729 format = .error GoError.errUnsupportedFormat := by
  refine ⟨rfl, rfl, rfl, rfl, rfl, rfl, ?_⟩
  unfold GetEncoder
  rw [if_neg hg, if_neg hu, if_neg ha, if_neg hs]

/-- Claim C6, witness: the theorem applied, on the nocgo build, to the
out-of-enumeration value invalid used by the tests. -/
theorem c6_get_encoder_formats_witness :
    formatInvalid ≠ FormatG729
    ∧ GetEncoder NewG729EncoderNoCGO FormatULaw = .ok CodecEncoder.ulawEncoder
    ∧ GetEncoder NewG729EncoderNoCGO formatInvalid
      = .error GoError.errUnsupportedFormat := by
  have h := c6_get_encoder_formats NewG729EncoderNoCGO formatInvalid
    (by decide) (by decide) (by decide) (by decide)
  exact ⟨by decide, h.1, h.2.2.2.2.2.2⟩

/-- A WAV decode capability returning conformant metadata (PCM, mono,
8000 Hz, 16 bit) and two samples, used as a concrete collaborator in
witnesses and counterexamples. -/
def conformantDecode : List Nat → Except GoError (WavFormat × List Int) :=
  fun _ => .ok (⟨1, 1, 8000, 16⟩, [0, 100])

/-- Claim C2, counterexample: a WAV whose metadata reports 2 channels is
rejected by ReadWAVSamples with the invalid-format sentinel (message:
invalid audio format), which is a different error value than the
invalid-input sentinel the claim names, so the validation failure does not
carry ErrInvalidInput. -/
theorem c2_invalid_metadata_counterexample :
    ReadWAVSamples (fun _ => .ok (⟨1, 2, 8000, 16⟩, [])) ⟨true, []⟩
      = .error GoError.errInvalidFormat
    ∧ GoError.errInvalidFormat ≠ GoError.errInvalidInput
    ∧ ReadWAVSamples (fun _ => .ok (⟨1, 2, 8000, 16⟩, [])) ⟨true, []⟩
      ≠ .error GoError.errInvalidInput := by
  refine ⟨rfl, by decide, ?_⟩
  intro h
  exact absurd (Except.error.inj h) (by decide)

/-- Claim C2, amended: validating WAV input whose metadata violates the
required invariant, specifically 2 channels, or a 44100 Hz sample rate, or
8-bit depth, fails in all three cases, but with the invalid-format
sentinel ErrInvalidFormat (invalid audio format), not ErrInvalidInput:
ReadWAVSamples returns ErrInvalidFormat for every violated metadata
constraint, whatever the byte source and samples are. -/
theorem c2_invalid_metadata_amended (bytes : List Nat) (samples : List Int) :
    ReadWAVSamples (fun _ => .ok (⟨1, 2, 8000, 16⟩, samples)) ⟨true, bytes⟩
      = .error GoError.errInvalidFormat
    ∧ ReadWAVSamples (fun _ => .ok (⟨1, 1, 44100, 16⟩, samples)) ⟨true, bytes⟩
      = .error GoError.errInvalidFormat
    ∧ ReadWAVSamples (fun _ => .ok (⟨1, 1, 8000, 8⟩, samples)) ⟨true, bytes⟩
      = .error GoError.errInvalidFormat :=
  ⟨rfl, rfl, rfl⟩

/-- Claim C3, counterexample: on the build without CGO, GetEncoder for the
g729 format fails, but the error is the wrapping error built with plain
message formatting (G.729 encoder not available: G.729 encoding requires
CGO and libbcg729 library), and following its unwrap chain never reaches
the ErrCodecNotAvailable sentinel, so the failure is not the typed
codec-not-available error the claim names. -/
theorem c3_codec_error_counterexample :
    GetEncoderNoCGO FormatG729
      = .error (GoError.errG729NotAvailable GoError.errG729RequiresCGO)
    ∧ errorIs (GoError.errG729NotAvailable GoError.errG729RequiresCGO)
        GoError.errCodecNotAvailable = false :=
  ⟨rfl, rfl⟩

/-- Claim C3, amended: on a build without native G.729 support, acquiring a
G729 encoder fails, with an untyped wrapped error that does not match the
ErrCodecNotAvailable sentinel under the errors.Is discipline (the sentinel
is declared but never returned); the error is also not any of the
invalid-input, invalid-format or unsupported-format sentinels, and
GetEncoder for ULaw on the same build still succeeds with an encoder
reporting the ulaw format. -/
theorem c3_nocgo_g729_amended :
    GetEncoderNoCGO FormatG729
      = .error (GoError.errG729NotAvailable GoError.errG729RequiresCGO)
    ∧ errorIs (GoError.errG729NotAvailable GoError.errG729RequiresCGO)
        GoError.errCodecNotAvailable = false
    ∧ errorIs (GoError.errG729NotAvailable GoError.errG729RequiresCGO)
        GoError.errInvalidInput = false
    ∧ errorIs (GoError.errG729NotAvailable GoError.errG729RequiresCGO)
        GoError.errInvalidFormat = false
    ∧ errorIs (GoError.errG729NotAvailable GoError.errG729RequiresCGO)
        GoError.errUnsupportedFormat = false
    ∧ GetEncoderNoCGO FormatULaw = .ok CodecEncoder.ulawEncoder
    ∧ CodecEncoder.getFormat CodecEncoder.ulawEncoder = FormatULaw :=
  ⟨rfl, rfl, rfl, rfl, rfl, rfl, rfl⟩

/-- Claim C5: when the sample count is not a multiple of 80, every frame
the G729 encoder submits to the external codec has exactly 80 samples, and
the frames concatenate to the input followed by zero-valued padding
samples: nothing is truncated, the tail is padded with silence, and the
frame construction is total, so no error arises from the leftover tail. -/
theorem c5_g729_pads_final_frame (samples : List Int)
    (h : samples.length % 80 ≠ 0) :
    (∀ f ∈ g729SubmittedFrames samples, f.length = 80)
    ∧ concatMap (fun f => f) (g729SubmittedFrames samples)
      = samples ++ List.replicate (80 - samples.length % 80) 0 := by
  refine ⟨frames_all_length samples, ?_⟩
  have hc : (80 - samples.length % 80) % 80 = 80 - samples.length % 80 := by
    omega
  rw [frames_flatten, hc]

/-- Claim C5, witness: the theorem applied to a single-sample input, whose
only submitted frame is that sample followed by 79 zeros. -/
theorem c5_g729_pads_witness :
    ([(1 : Int)]).length % 80 ≠ 0
    ∧ concatMap (fun f => f) (g729SubmittedFrames [(1 : Int)])
      = [(1 : Int)] ++ List.replicate 79 0 := by
  have h : ([(1 : Int)]).length % 80 ≠ 0 := by decide
  refine ⟨h, ?_⟩
  have hthm := (c5_g729_pads_final_frame [(1 : Int)] h).2
  simpa using hthm

/-- Claim C8: ReadWAVSamples rejects every reader whose dynamic type is not
a pointer to os.File with the reader-must-be-file error and returns no
samples, whatever WAV decode capability is in scope and whatever bytes the
reader supplies, so only os File inputs can be decoded through this entry
point. -/
theorem c8_reader_requires_osfile
    (wavDecode : List Nat → Except GoError (WavFormat × List Int))
    (r : GoReader) (h : r.isOSFile = false) :
    ReadWAVSamples wavDecode r = .error GoError.errReaderMustBeFile := by
  unfold ReadWAVSamples
  rw [h]
  rfl

/-- Claim C8, witness: the theorem applied to a non-file reader whose byte
stream would decode to fully conformant mono, 8000 Hz, 16-bit PCM content;
the same decode capability succeeds when the reader is an os File, so the
rejection is caused by the reader type alone. -/
theorem c8_reader_requires_osfile_witness :
    (GoReader.mk false []).isOSFile = false
    ∧ ReadWAVSamples conformantDecode (GoReader.mk false [])
      = .error GoError.errReaderMustBeFile
    ∧ ReadWAVSamples conformantDecode (GoReader.mk true [])
      = .ok ([0, 100], ⟨16, 8000, 1, 2⟩) :=
  ⟨rfl, c8_reader_requires_osfile conformantDecode (GoReader.mk false []) rfl,
    rfl⟩

/-- Claim C10: SLIN encoding through a sink that accepts all writes is
lossless and injective: the encoder succeeds with the concatenated
little-endian byte pairs, reading those pairs back as signed 16-bit values
recovers the sample list exactly, and two sample lists of int16 values with
the same output bytes are equal. -/
theorem c10_slin_roundtrip (samples : List Int)
    (h : ∀ s ∈ samples, -32768 ≤ s ∧ s ≤ 32767) :
    SLINEncoderEncode bufWrite samples []
      = .ok (concatMap slinBytes samples)
    ∧ slinDecodeBytes (concatMap slinBytes samples) = samples
    ∧ ∀ other : List Int, (∀ s ∈ other, -32768 ≤ s ∧ s ≤ 32767) →
        concatMap slinBytes samples = concatMap slinBytes other →
        samples = other := by
  refine ⟨?_, slin_roundtrip_all samples h, ?_⟩
  · rw [SLINEncoderEncode, encodeLoop_buf]
    rfl
  · intro other hother henc
    calc samples = slinDecodeBytes (concatMap slinBytes samples) :=
          (slin_roundtrip_all samples h).symm
      _ = slinDecodeBytes (concatMap slinBytes other) := by rw [henc]
      _ = other := slin_roundtrip_all other hother

/-- Claim C10, witness: the theorem applied to the two-sample list with
values 100 and -3. -/
theorem c10_slin_roundtrip_witness :
    (∀ s ∈ ([100, -3] : List Int), -32768 ≤ s ∧ s ≤ 32767)
    ∧ slinDecodeBytes (concatMap slinBytes ([100, -3] : List Int))
      = [100, -3] := by
  have h : ∀ s ∈ ([100, -3] : List Int), -32768 ≤ s ∧ s ≤ 32767 := by decide
  exact ⟨h, (c10_slin_roundtrip [100, -3] h).2.1⟩

end Wav2Multi
